import Mathlib

/-!
Verification of the response-parsing core of the social-media post generator
(`src/lib/ai-client.ts`, with the Anthropic-SDK variant of `generatePost` in the
second client file).  Strings are modelled as `List Char`; offsets are character
offsets (all characters involved are in the Basic Multilingual Plane, so they
coincide with the JavaScript UTF-16 code-unit offsets the source works with).
-/

/-- JavaScript `\s` character class (also the character set removed by
`String.prototype.trim`): tab, LF, VT, FF, CR, space, NBSP, and the Unicode
space separators, line/paragraph separators, and BOM. -/
def isWS (c : Char) : Bool :=
  (9 ≤ c.toNat && c.toNat ≤ 13) || c.toNat == 32 || c.toNat == 0xa0 ||
  c.toNat == 0x1680 || (0x2000 ≤ c.toNat && c.toNat ≤ 0x200a) ||
  c.toNat == 0x2028 || c.toNat == 0x2029 || c.toNat == 0x202f ||
  c.toNat == 0x205f || c.toNat == 0x3000 || c.toNat == 0xfeff

/-- JavaScript line terminators: the characters `.` refuses to match and the
ones `^`/`$` anchor around in multiline mode. -/
def lineTerm (c : Char) : Bool :=
  c.toNat == 10 || c.toNat == 13 || c.toNat == 0x2028 || c.toNat == 0x2029

/-- Case canonicalisation used by a case-insensitive (`/i`) JavaScript regex:
uppercasing, covering ASCII and the Polish letters occurring in the marker
phrases. -/
def foldUp (c : Char) : Char :=
  if 97 ≤ c.toNat ∧ c.toNat ≤ 122 then Char.ofNat (c.toNat - 32)
  else if c = 'ą' then 'Ą' else if c = 'ć' then 'Ć' else if c = 'ę' then 'Ę'
  else if c = 'ł' then 'Ł' else if c = 'ń' then 'Ń' else if c = 'ó' then 'Ó'
  else if c = 'ś' then 'Ś' else if c = 'ź' then 'Ź' else if c = 'ż' then 'Ż'
  else c

/-- Left half of `String.prototype.trim`. -/
def trimLeftStr (s : List Char) : List Char := s.dropWhile (fun c => isWS c)

/-- Right half of `String.prototype.trim`. -/
def trimRightStr (s : List Char) : List Char :=
  (s.reverse.dropWhile (fun c => isWS c)).reverse

/-- `String.prototype.trim`. -/
def trimStr (s : List Char) : List Char := trimLeftStr (trimRightStr s)

/-- `String.prototype.split('\n')`: every `'\n'` is a separator, empty pieces
are kept, and the empty string yields one empty piece. -/
def splitNl : List Char → List (List Char)
  | [] => [[]]
  | c :: rest =>
    if c = '\n' then [] :: splitNl rest
    else
      match splitNl rest with
      | l :: ls => (c :: l) :: ls
      | [] => [[c]]

/-- Scan a text left to right, returning the first position (and matched
length) at which the position matcher `f` succeeds — the semantics of
`String.prototype.match` (`match.index` and `match[0].length`) for a regex
without the global flag. The matcher is also tried at the end-of-text
position, as a regex engine would. -/
def scanFirst (f : List Char → Option Nat) : Nat → List Char → Option (Nat × Nat)
  | i, [] =>
    match f [] with
    | some n => some (i, n)
    | none => none
  | i, c :: rest =>
    match f (c :: rest) with
    | some n => some (i, n)
    | none => scanFirst f (i + 1) rest

/-- Match `\s*PHRASE` (case-insensitively) at the start of `rest`, returning
the matched length.  `\s*` is greedy; since every phrase starts with a
non-whitespace letter, only the maximal whitespace run can precede a match,
so no backtracking is needed. -/
def tryWsPhrase (phrase rest : List Char) : Option Nat :=
  if ((rest.drop (rest.takeWhile (fun c => isWS c)).length).take phrase.length).map foldUp
      = phrase.map foldUp
  then some ((rest.takeWhile (fun c => isWS c)).length + phrase.length) else none

/-- Match `##?\s*PHRASE` (the shape of the three heading marker regexes,
case-insensitive) at the start of the given text, returning the matched
length.  `##?` is greedy: two hashes are tried first, then one. -/
def headMatchAt (phrase : List Char) : List Char → Option Nat
  | '#' :: '#' :: rest =>
    (match tryWsPhrase phrase rest with
     | some n => some (2 + n)
     | none =>
       match tryWsPhrase phrase ('#' :: rest) with
       | some n => some (1 + n)
       | none => none)
  | '#' :: rest =>
    (match tryWsPhrase phrase rest with
     | some n => some (1 + n)
     | none => none)
  | _ => none

/-- Does `^---$` (multiline) match at the start of the given suffix, assuming
the suffix starts at a line start?  `$` accepts end of text or a line
terminator. -/
def dashHere : List Char → Bool
  | '-' :: '-' :: '-' :: rest =>
    (match rest with
     | [] => true
     | c :: _ => lineTerm c)
  | _ => false

/-- First match of `/^---$/m`: scan while tracking whether the current
position is at a line start (text start, or just after a line terminator). -/
def dashScan : Bool → Nat → List Char → Option (Nat × Nat)
  | _, _, [] => none
  | atStart, i, c :: rest =>
    if atStart && dashHere (c :: rest) then some (i, 3)
    else dashScan (lineTerm c) (i + 1) rest

/-- The four boundary-marker patterns of `parseResponse`, in source order. -/
inductive Marker
  | sugerowana
  | kolejnoscMixed
  | kolejnoscUpper
  | dashes
deriving DecidableEq

def phraseSugerowana : List Char := "SUGEROWANA KOLEJNOŚĆ ZDJĘĆ:".data

def phraseMixed : List Char := "Kolejność zdjęć:".data

def phraseUpper : List Char := "KOLEJNOŚĆ ZDJĘĆ:".data

/-- `text.match(marker)` for each of the four marker regexes: first match
position and matched length. -/
def firstMatch : Marker → List Char → Option (Nat × Nat)
  | Marker.sugerowana, s => scanFirst (headMatchAt phraseSugerowana) 0 s
  | Marker.kolejnoscMixed, s => scanFirst (headMatchAt phraseMixed) 0 s
  | Marker.kolejnoscUpper, s => scanFirst (headMatchAt phraseUpper) 0 s
  | Marker.dashes, s => dashScan true 0 s

def markers : List Marker :=
  [Marker.sugerowana, Marker.kolejnoscMixed, Marker.kolejnoscUpper, Marker.dashes]

/-- One iteration of the marker loop in `parseResponse`: keep the candidate
with the strictly larger first-match index. -/
def chooseStep (text : List Char) (acc : Int × Nat) (m : Marker) : Int × Nat :=
  match firstMatch m text with
  | some (i, l) => if acc.1 < (i : Int) then ((i : Int), l) else acc
  | none => acc

/-- The `splitIndex` / `usedMarkerLength` computation of `parseResponse`,
starting from `(-1, 0)`. -/
def chooseMarker (text : List Char) : Int × Nat :=
  markers.foldl (chooseStep text) (-1, 0)

/-- The `replace` of the regex "three dashes, then `\s*$`" with the empty
string: remove the leftmost occurrence of `---`
followed only by whitespace up to the end of the string (without `/m`, `$`
only accepts the very end, so the match necessarily extends to it). -/
def stripTrailingDashes : List Char → List Char
  | '-' :: '-' :: '-' :: rest =>
    if rest.all (fun c => isWS c) then []
    else '-' :: stripTrailingDashes ('-' :: '-' :: rest)
  | c :: rest => c :: stripTrailingDashes rest
  | [] => []

/-- The separator class `[\.\)\-\:]` of the photo-order line regex. -/
def seps : List Char := ['.', ')', '-', ':']

/-- `parseInt(digits, 10)` on a string of decimal digits. -/
def natOfDigits (l : List Char) : Nat :=
  l.foldl (fun a c => a * 10 + (c.toNat - 48)) 0

/-- Match `\s*(.+)$` against the rest of a line, returning the capture of
`(.+)`.  `\s*` is greedy and `.` refuses line terminators, so: if the rest
contains a non-whitespace character the capture is the rest minus its maximal
whitespace run (failing if a line terminator remains); if the rest is
whitespace only, the regex backtracks one character and captures just the
last character (failing if that is a line terminator). -/
def matchTail (s : List Char) : Option (List Char) :=
  if (s.dropWhile (fun c => isWS c)).isEmpty then
    match s.getLast? with
    | none => none
    | some c => if lineTerm c then none else some [c]
  else if (s.dropWhile (fun c => isWS c)).any (fun c => lineTerm c) then none
  else some (s.dropWhile (fun c => isWS c))

/-- Match `(\d+)[\.\)\-\:]\s*(.+)$` at the start of a line (the part of the
photo-order line regex after the optional prefix).  `\d+` is greedy and the
separator class contains no digit, so the digit run is maximal. -/
def matchRest (s : List Char) : Option (Nat × List Char) :=
  if (s.takeWhile Char.isDigit).isEmpty then none
  else
    match s.drop (s.takeWhile Char.isDigit).length with
    | [] => none
    | c :: rest =>
      if c ∈ seps then
        match matchTail rest with
        | some r => some (natOfDigits (s.takeWhile Char.isDigit), r)
        | none => none
      else none

def imageWord : List Char := "IMAGE".data

/-- Match the optional prefix `(?:Image\s+)` case-insensitively: the literal
word followed by a maximal nonempty whitespace run (the regex continues with
`\d+`, so shorter runs cannot match). -/
def stripImageWord (s : List Char) : Option (List Char) :=
  if (s.take 5).map foldUp = imageWord then
    if ((s.drop 5).takeWhile (fun c => isWS c)).isEmpty then none
    else some ((s.drop 5).drop ((s.drop 5).takeWhile (fun c => isWS c)).length)
  else none

/-- `line.match(/^(?:Image\s+)?(\d+)[\.\)\-\:]\s*(.+)$/i)`: the parsed number
and the `(.+)` capture.  The optional prefix is tried first; on failure the
engine retries without it. -/
def matchLine (s : List Char) : Option (Nat × List Char) :=
  match stripImageWord s with
  | some s2 =>
    (match matchRest s2 with
     | some r => some r
     | none => matchRest s)
  | none => matchRest s

/-- `.replace(/\*\*/g, '')`: single left-to-right pass removing
non-overlapping occurrences of `**`. -/
def removeBold : List Char → List Char
  | '*' :: '*' :: rest => removeBold rest
  | c :: rest => c :: removeBold rest
  | [] => []

/-- The `ImageOrderItem` interface of the client. -/
structure ImageOrderItem where
  position : Int
  description : List Char
deriving DecidableEq

/-- Loop body of `parseImageOrder`: matched lines are appended as items
(1-based number shifted to a 0-based position, `**` stripped from the trimmed
remainder), unmatched lines are skipped. -/
def pushItem (acc : List ImageOrderItem) (line : List Char) : List ImageOrderItem :=
  match matchLine line with
  | some nr =>
    acc ++ [{ position := (nr.1 : Int) - 1, description := removeBold (trimStr nr.2) }]
  | none => acc

/-- `parseImageOrder`: split on newlines, drop lines that are empty after
trimming, then run the line loop. -/
def parseImageOrder (text : List Char) : List ImageOrderItem :=
  ((splitNl text).filter (fun l => !(trimStr l).isEmpty)).foldl pushItem []

/-- Return type of `parseResponse`. -/
structure ParsedResult where
  post : List Char
  imageOrder : List ImageOrderItem
deriving DecidableEq

/-- `parseResponse`: choose the marker with the latest first match; with no
match return the whole trimmed text and no items, otherwise split at the
match, strip a trailing `---` from the post part, and parse the suffix after
the matched marker. -/
def parseResponse (text : List Char) : ParsedResult :=
  let c := chooseMarker text
  if c.1 = -1 then { post := trimStr text, imageOrder := [] }
  else
    { post := trimStr (stripTrailingDashes (text.take c.1.toNat)),
      imageOrder := parseImageOrder (trimStr (text.drop (c.1.toNat + c.2))) }

/-! ## Derived characterisations and helper definitions -/

/-- The item a single line contributes, if any: functional form of the loop
body of `parseImageOrder`. -/
def lineItem (line : List Char) : Option ImageOrderItem :=
  (matchLine line).map
    (fun nr => { position := (nr.1 : Int) - 1, description := removeBold (trimStr nr.2) })

/-- Does a string contain an occurrence of the two-character marker? -/
def hasBold : List Char → Bool
  | '*' :: '*' :: _ => true
  | _ :: rest => hasBold rest
  | [] => false

/-- Concrete text with a bare dash line first matching at offset 10 and the
primary heading first matching at offset 500. -/
def bigText : List Char :=
  "abcdefghi\n---\n".data ++ List.replicate 486 'a' ++
    "## SUGEROWANA KOLEJNOŚĆ ZDJĘĆ:".data

/-! ### Model of `generatePost` (Anthropic-SDK client)

The provider call is modelled as a value: either a transport/provider error
or a returned message (content blocks plus token usage).  The credential is
the environment variable, `none` when unset; JavaScript truthiness makes the
empty string count as missing as well. -/

structure TokenUsage where
  input_tokens : Nat
  output_tokens : Nat
deriving DecidableEq

inductive ContentBlock
  | text (s : List Char)
  | other
deriving DecidableEq

/-- The predicate of `message.content.find(block => block.type === 'text')`. -/
def isTextBlock : ContentBlock → Bool
  | ContentBlock.text _ => true
  | ContentBlock.other => false

structure GenMessage where
  content : List ContentBlock
  usage : TokenUsage
deriving DecidableEq

structure GenUsage where
  promptTokens : Nat
  completionTokens : Nat
  totalTokens : Nat
deriving DecidableEq

structure GenerateResponse where
  post : List Char
  imageOrder : List ImageOrderItem
  usage : GenUsage
deriving DecidableEq

def isErr {e a : Type} : Except e a → Bool
  | Except.error _ => true
  | Except.ok _ => false

/-- `!process.env.ANTHROPIC_API_KEY`: unset, or set to the empty string. -/
def apiKeyMissing (key : Option (List Char)) : Bool :=
  match key with
  | none => true
  | some [] => true
  | some (_ :: _) => false

/-- `generatePost`: reject a missing credential before looking at the provider
call; propagate a provider error and a missing text block as generation
failures (the `catch` block rewraps both thrown messages); otherwise parse the
first text block and return it with the usage counters. -/
def generatePost (key : Option (List Char)) (call : Except (List Char) GenMessage) :
    Except (List Char) GenerateResponse :=
  if apiKeyMissing key then
    Except.error "ANTHROPIC_API_KEY is not set in environment variables".data
  else
    match call with
    | Except.error e => Except.error ("Failed to generate post: ".data ++ e)
    | Except.ok msg =>
      match msg.content.find? isTextBlock with
      | some (ContentBlock.text t) =>
        Except.ok { post := (parseResponse t).post,
                    imageOrder := (parseResponse t).imageOrder,
                    usage := { promptTokens := msg.usage.input_tokens,
                               completionTokens := msg.usage.output_tokens,
                               totalTokens := msg.usage.input_tokens + msg.usage.output_tokens } }
      | _ => Except.error "Failed to generate post: No text response from Claude".data

/-! ### Constructions used to state the sequential-numbering claim -/

/-- The primary heading as the provider is instructed to emit it. -/
def hdStr : List Char := "## SUGEROWANA KOLEJNOŚĆ ZDJĘĆ:".data

/-- Decimal digit string, structurally recursive on a fuel bound so that it
reduces inside the kernel. -/
def natDigitsAux : Nat → Nat → List Char
  | 0, _ => []
  | fuel + 1, n =>
    if n < 10 then [Char.ofNat (48 + n)]
    else natDigitsAux fuel (n / 10) ++ [Char.ofNat (48 + n % 10)]

/-- Decimal digit string of a natural number (most significant first). -/
def natDigits (n : Nat) : List Char := natDigitsAux (n + 1) n

/-- A well-formed numbered line: number, `.` separator, one space, then the
description. -/
def numberedLine (k : Nat) (d : List Char) : List Char :=
  natDigits k ++ '.' :: ' ' :: d

/-- Newline-joined numbered lines, numbering from `s`. -/
def numberedLines : Nat → List (List Char) → List Char
  | _, [] => []
  | s, [d] => numberedLine s d
  | s, d :: rest => numberedLine s d ++ '\n' :: numberedLines (s + 1) rest

/-- The same lines as a list. -/
def linesList : Nat → List (List Char) → List (List Char)
  | _, [] => []
  | s, d :: rest => numberedLine s d :: linesList (s + 1) rest

/-- The items the parser produces for those lines. -/
def itemsFrom : Nat → List (List Char) → List ImageOrderItem
  | _, [] => []
  | s, d :: rest =>
    { position := (s : Int) - 1,
      description := removeBold (trimStr (d.dropWhile (fun c => isWS c))) }
      :: itemsFrom (s + 1) rest

/-- A usable description: nonempty, free of line terminators, and with no
trailing whitespace. -/
def goodDesc (d : List Char) : Bool :=
  !d.isEmpty && d.all (fun c => !lineTerm c) && decide (trimRightStr d = d)

/-- Is the first-match index (if any) at most `k`? -/
def idxLe (o : Option (Nat × Nat)) (k : Nat) : Bool :=
  match o with
  | none => true
  | some il => decide (il.1 ≤ k)

/-- A raw text containing exactly one heading followed by the numbered lines:
a preamble, the heading, a newline, then the lines numbered from 1. -/
def c3text (p : List Char) (ds : List (List Char)) : List Char :=
  p ++ hdStr ++ '\n' :: numberedLines 1 ds

/-! ## Helper lemmas -/

theorem foldl_pushItem (ls : List (List Char)) (acc : List ImageOrderItem) :
    ls.foldl pushItem acc = acc ++ ls.filterMap lineItem := by
  induction ls generalizing acc with
  | nil => simp
  | cons l ls ih =>
    simp only [List.foldl_cons, List.filterMap_cons]
    cases h : matchLine l with
    | none => simp [pushItem, h, lineItem, ih]
    | some nr => simp [pushItem, h, lineItem, ih]

theorem parseImageOrder_filterMap (text : List Char) :
    parseImageOrder text
      = ((splitNl text).filter (fun l => !(trimStr l).isEmpty)).filterMap lineItem := by
  unfold parseImageOrder
  simpa using foldl_pushItem _ []

theorem mem_parseImageOrder (text : List Char) (it : ImageOrderItem)
    (h : it ∈ parseImageOrder text) :
    ∃ line ∈ splitNl text, ∃ n r,
      matchLine line = some (n, r) ∧ it = { position := (n : Int) - 1, description := removeBold (trimStr r) } := by
  rw [parseImageOrder_filterMap] at h
  rcases List.mem_filterMap.mp h with ⟨line, hline, hitem⟩
  refine ⟨line, List.mem_of_mem_filter hline, ?_⟩
  unfold lineItem at hitem
  cases hm : matchLine line with
  | none => rw [hm] at hitem; simp at hitem
  | some nr =>
    rw [hm] at hitem
    simp only [Option.map_some'] at hitem
    exact ⟨nr.1, nr.2, rfl, (Option.some.inj hitem).symm⟩

theorem removeBold_eq_self (d : List Char) (h : hasBold d = false) : removeBold d = d := by
  induction d using removeBold.induct with
  | case1 rest => simp [hasBold] at h
  | case2 c rest hne ih =>
    have hrest : hasBold rest = false := by
      rw [hasBold.eq_def] at h
      split at h
      · exact absurd h (by simp)
      · rename_i heq
        injection heq with e1 e2
        rw [e2]; exact h
      · rename_i heq
        exact absurd heq (by simp)
    rw [removeBold.eq_def]
    split
    · rename_i x hx
      injection hx with e1 e2
      exact (hne x e1 e2).elim
    · rename_i c2 rest2 hx
      injection hx with e1 e2
      rw [← e1, ← e2, ih hrest]
    · rename_i hx
      exact absurd hx (by simp)
  | case3 => rfl

theorem chooseStep_fst_le (text : List Char) (acc : Int × Nat) (m : Marker) :
    acc.1 ≤ (chooseStep text acc m).1 := by
  unfold chooseStep
  cases h : firstMatch m text with
  | none => exact le_refl _
  | some il =>
    cases il with
    | mk i l =>
      dsimp only
      by_cases hlt : acc.1 < (i : Int)
      · rw [if_pos hlt]; exact le_of_lt hlt
      · rw [if_neg hlt]

theorem foldl_chooseStep_fst_le (text : List Char) (ms : List Marker) (acc : Int × Nat) :
    acc.1 ≤ (ms.foldl (chooseStep text) acc).1 := by
  induction ms generalizing acc with
  | nil => exact le_refl _
  | cons m ms ih =>
    exact le_trans (chooseStep_fst_le text acc m) (ih (chooseStep text acc m))

theorem chooseStep_ge (text : List Char) (acc : Int × Nat) (m : Marker)
    (i l : Nat) (hi : firstMatch m text = some (i, l)) :
    (i : Int) ≤ (chooseStep text acc m).1 := by
  unfold chooseStep
  rw [hi]
  dsimp only
  by_cases hlt : acc.1 < (i : Int)
  · rw [if_pos hlt]
  · rw [if_neg hlt]; omega

theorem foldl_chooseStep_ge (text : List Char) (ms : List Marker) (m : Marker)
    (i l : Nat) (hi : firstMatch m text = some (i, l)) :
    ∀ acc : Int × Nat, m ∈ ms → (i : Int) ≤ (ms.foldl (chooseStep text) acc).1 := by
  induction ms with
  | nil => intro acc hm; cases hm
  | cons m2 ms ih =>
    intro acc hm
    rcases List.mem_cons.mp hm with heq | htail
    · subst heq
      exact le_trans (chooseStep_ge text acc m i l hi)
        (foldl_chooseStep_fst_le text ms (chooseStep text acc m))
    · exact ih (chooseStep text acc m2) htail

theorem foldl_chooseStep_cases (text : List Char) (ms : List Marker) (acc : Int × Nat) :
    ms.foldl (chooseStep text) acc = acc ∨
      ∃ m ∈ ms, ∃ i l, firstMatch m text = some (i, l) ∧
        ms.foldl (chooseStep text) acc = ((i : Int), l) := by
  induction ms generalizing acc with
  | nil => exact Or.inl rfl
  | cons m ms ih =>
    rcases ih (chooseStep text acc m) with h | h
    · simp only [List.foldl_cons] at h ⊢
      rw [h]
      unfold chooseStep
      cases hf : firstMatch m text with
      | none => exact Or.inl rfl
      | some il =>
        cases il with
        | mk i l =>
          dsimp only
          by_cases hlt : acc.1 < (i : Int)
          · rw [if_pos hlt]
            exact Or.inr ⟨m, List.mem_cons_self m ms, i, l, hf, rfl⟩
          · rw [if_neg hlt]
            exact Or.inl rfl
    · rcases h with ⟨m2, hm2, i, l, hf, heq⟩
      exact Or.inr ⟨m2, List.mem_cons_of_mem m hm2, i, l, hf, heq⟩

/-! ## Claim theorems -/

/-- C1: for every text in which at least one of the four marker patterns
matches, the chosen split offset is the maximum of the first-match offsets of
the matching patterns, and the recorded length comes from a pattern whose
first match sits at that offset. -/
theorem c1_latest_offset_wins (text : List Char)
    (h : ∃ m ∈ markers, (firstMatch m text).isSome) :
    (∀ m ∈ markers, ∀ i l, firstMatch m text = some (i, l) →
        (i : Int) ≤ (chooseMarker text).1) ∧
    (∃ m ∈ markers, firstMatch m text
        = some ((chooseMarker text).1.toNat, (chooseMarker text).2)) := by
  have hdef : chooseMarker text = markers.foldl (chooseStep text) (-1, 0) := rfl
  constructor
  · intro m hm i l hi
    rw [hdef]
    exact foldl_chooseStep_ge text markers m i l hi (-1, 0) hm
  · rcases foldl_chooseStep_cases text markers (-1, 0) with hc | hc
    · exfalso
      rcases h with ⟨m, hm, hsome⟩
      rcases Option.isSome_iff_exists.mp hsome with ⟨il, hil⟩
      cases il with
      | mk i l =>
        have hle := foldl_chooseStep_ge text markers m i l hil (-1, 0) hm
        rw [hc] at hle
        omega
    · rcases hc with ⟨m, hm, i, l, hf, heq⟩
      refine ⟨m, hm, ?_⟩
      rw [hdef, heq]
      simpa using hf

set_option maxRecDepth 10000 in
/-- Witness for C1 at the text of the claim: a bare dash line first matches at
offset 10, the heading at offset 500, and the chosen split is (500, 30). -/
theorem c1_latest_offset_wins_witness :
    (∃ m ∈ markers, (firstMatch m bigText).isSome) ∧
    firstMatch Marker.dashes bigText = some (10, 3) ∧
    firstMatch Marker.sugerowana bigText = some (500, 30) ∧
    chooseMarker bigText = (500, 30) ∧
    (∀ m ∈ markers, ∀ i l, firstMatch m bigText = some (i, l) →
        (i : Int) ≤ (chooseMarker bigText).1) := by
  have hexists : ∃ m ∈ markers, (firstMatch m bigText).isSome := by decide
  exact ⟨hexists, by decide, by decide, by decide,
    (c1_latest_offset_wins bigText hexists).1⟩

/-- C2: `parseResponse` is a total Lean function; when none of the four marker
patterns matches it returns the trimmed input as the post and no photo items,
with no error path. -/
theorem c2_no_marker_degrades (text : List Char)
    (h : ∀ m ∈ markers, firstMatch m text = none) :
    parseResponse text = { post := trimStr text, imageOrder := [] } := by
  have h1 := h Marker.sugerowana (by simp [markers])
  have h2 := h Marker.kolejnoscMixed (by simp [markers])
  have h3 := h Marker.kolejnoscUpper (by simp [markers])
  have h4 := h Marker.dashes (by simp [markers])
  have hc : chooseMarker text = (-1, 0) := by
    unfold chooseMarker markers
    simp [List.foldl, chooseStep, h1, h2, h3, h4]
  simp [parseResponse, hc]

/-- Witness for C2 on a markerless text. -/
theorem c2_no_marker_degrades_witness :
    (∀ m ∈ markers, firstMatch m "Czesc swiecie".data = none) ∧
    parseResponse "Czesc swiecie".data
      = { post := "Czesc swiecie".data, imageOrder := [] } := by
  have h : ∀ m ∈ markers, firstMatch m "Czesc swiecie".data = none := by decide
  exact ⟨h, (c2_no_marker_degrades _ h).trans (by decide)⟩

/-- C4: unmatched lines are silently skipped and the output is exactly the
in-order image of the matching lines — no sorting, de-duplication or
renumbering; a malformed line between two well-formed ones yields exactly the
two items in line order. -/
theorem c4_skip_and_order :
    (∀ text, parseImageOrder text
        = ((splitNl text).filter (fun l => !(trimStr l).isEmpty)).filterMap lineItem) ∧
    matchLine "some commentary".data = none ∧
    parseImageOrder "1. First\nsome commentary\n2. Second".data
      = [{ position := 0, description := "First".data },
         { position := 1, description := "Second".data }] :=
  ⟨parseImageOrder_filterMap, by decide, by decide⟩

/-- C5 counterexample: the code trims the captured remainder first and then
removes the bold markers; on the line `1. ** x**` this yields the description
`" x"`, while removing the markers first and then trimming (the claim's
order) yields `"x"`. -/
theorem c5_strip_order_counterexample :
    matchLine "1. ** x**".data = some (1, "** x**".data) ∧
    (parseImageOrder "1. ** x**".data).map ImageOrderItem.description = [" x".data] ∧
    trimStr (removeBold "** x**".data) = "x".data ∧
    " x".data ≠ ("x".data : List Char) :=
  ⟨by decide, by decide, by decide, by decide⟩

/-- C5 (amended): every produced description equals the matched remainder
trimmed and then with every `**` removed; the stripping leaves `**`-free
strings unchanged, and on `"1. **Hero shot** - wide view"` it yields
`"Hero shot - wide view"`. -/
theorem c5_trim_then_strip :
    (∀ text it, it ∈ parseImageOrder text →
        ∃ line ∈ splitNl text, ∃ n r, matchLine line = some (n, r) ∧
          it.description = removeBold (trimStr r)) ∧
    (∀ d, hasBold d = false → removeBold d = d) ∧
    parseImageOrder "1. **Hero shot** - wide view".data
      = [{ position := 0, description := "Hero shot - wide view".data }] := by
  refine ⟨?_, fun d hd => removeBold_eq_self d hd, by decide⟩
  intro text it h
  rcases mem_parseImageOrder text it h with ⟨line, hline, n, r, hm, hit⟩
  exact ⟨line, hline, n, r, hm, by rw [hit]⟩

/-- Witness for C5 (amended) on concrete inputs. -/
theorem c5_trim_then_strip_witness :
    ((⟨0, "Hero shot - wide view".data⟩ : ImageOrderItem)
        ∈ parseImageOrder "1. **Hero shot** - wide view".data) ∧
    (∃ line ∈ splitNl "1. **Hero shot** - wide view".data, ∃ n r,
        matchLine line = some (n, r) ∧
        (⟨0, "Hero shot - wide view".data⟩ : ImageOrderItem).description
          = removeBold (trimStr r)) ∧
    hasBold "zwykly opis".data = false ∧
    removeBold "zwykly opis".data = "zwykly opis".data := by
  have hmem : (⟨0, "Hero shot - wide view".data⟩ : ImageOrderItem)
      ∈ parseImageOrder "1. **Hero shot** - wide view".data := by decide
  have hb : hasBold "zwykly opis".data = false := by decide
  exact ⟨hmem, c5_trim_then_strip.1 _ _ hmem, hb, c5_trim_then_strip.2.1 _ hb⟩

/-- C7: the concrete end-to-end scenario from the specification. -/
theorem c7_concrete_scenario :
    parseResponse ("Oto post...\n\n---\n\n## SUGEROWANA KOLEJNOŚĆ ZDJĘĆ:\n1. Hero shot pokoju\n2. Biurko z bliska\n3. Szafa").data
      = { post := "Oto post...".data,
          imageOrder := [{ position := 0, description := "Hero shot pokoju".data },
                         { position := 1, description := "Biurko z bliska".data },
                         { position := 2, description := "Szafa".data }] } := by
  decide

/-- C9: every produced position is at least −1, and −1 is reachable from a
line whose leading numeral is 0. -/
theorem c9_position_lower_bound :
    (∀ text it, it ∈ parseImageOrder text → (-1 : Int) ≤ it.position) ∧
    parseImageOrder "0. opis".data = [{ position := -1, description := "opis".data }] := by
  constructor
  · intro text it h
    rcases mem_parseImageOrder text it h with ⟨line, _, n, r, _, hit⟩
    rw [hit]
    dsimp only
    omega
  · decide

/-- Witness for C9 at a concrete item. -/
theorem c9_position_lower_bound_witness :
    ((⟨-1, "opis".data⟩ : ImageOrderItem) ∈ parseImageOrder "0. opis".data) ∧
    (-1 : Int) ≤ (⟨-1, "opis".data⟩ : ImageOrderItem).position := by
  have hmem : (⟨-1, "opis".data⟩ : ImageOrderItem) ∈ parseImageOrder "0. opis".data := by
    decide
  exact ⟨hmem, c9_position_lower_bound.1 _ _ hmem⟩

/-- C10: a matched line can still produce an empty description: `"1. **"`
matches with remainder `"**"`, and stripping the bold markers leaves the
empty string. -/
theorem c10_empty_description_reachable :
    matchLine "1. **".data = some (1, "**".data) ∧
    parseImageOrder "1. **".data = [{ position := 0, description := [] }] :=
  ⟨by decide, by decide⟩

/-- C6: the returned post is a prefix of the raw text up to the trailing-dash
strip and trimming, and the photo items are computed only from the trimmed
suffix that follows the chosen marker (offset + matched length). -/
theorem c6_post_head_items_tail (text : List Char) :
    (∃ k, (parseResponse text).post = trimStr (List.take k text) ∨
          (parseResponse text).post = trimStr (stripTrailingDashes (List.take k text))) ∧
    (((chooseMarker text).1 = -1 ∧ (parseResponse text).imageOrder = []) ∨
      ∃ (i l : Nat), chooseMarker text = ((i : Int), l) ∧
        (parseResponse text).imageOrder
          = parseImageOrder (trimStr (List.drop (i + l) text))) := by
  by_cases h : (chooseMarker text).1 = -1
  · refine ⟨⟨text.length, Or.inl ?_⟩, Or.inl ⟨h, ?_⟩⟩
    · simp [parseResponse, h, List.take_length]
    · simp [parseResponse, h]
  · have hge : 0 ≤ (chooseMarker text).1 := by
      have hle := foldl_chooseStep_fst_le text markers (-1, 0)
      have hdef : chooseMarker text = markers.foldl (chooseStep text) (-1, 0) := rfl
      rw [← hdef] at hle
      omega
    refine ⟨⟨(chooseMarker text).1.toNat, Or.inr ?_⟩, Or.inr
      ⟨(chooseMarker text).1.toNat, (chooseMarker text).2, ?_, ?_⟩⟩
    · simp [parseResponse, h]
    · rw [Int.toNat_of_nonneg hge]
    · simp [parseResponse, h]

/-- C8: `generatePost` fails exactly when the credential is missing (unset or
empty env var), the provider call fails, or the returned message has no text
content block; and with a missing credential the outcome does not depend on
the provider call at all (the check precedes the network call). -/
theorem c8_failure_iff :
    (∀ key call, isErr (generatePost key call) = true ↔
        (apiKeyMissing key = true ∨ (∃ e, call = Except.error e) ∨
          (∃ msg, call = Except.ok msg ∧ msg.content.find? isTextBlock = none))) ∧
    (∀ key, apiKeyMissing key = true ↔ (key = none ∨ key = some [])) ∧
    (∀ (key : Option (List Char)) call1 call2, apiKeyMissing key = true →
        generatePost key call1 = generatePost key call2) := by
  refine ⟨?_, ?_, ?_⟩
  · intro key call
    by_cases hk : apiKeyMissing key = true
    · constructor
      · intro _
        exact Or.inl hk
      · intro _
        unfold generatePost
        rw [if_pos hk]
        rfl
    · have hk2 : apiKeyMissing key = false := by
        cases h2 : apiKeyMissing key with
        | true => exact absurd h2 hk
        | false => rfl
      cases call with
      | error e =>
        unfold generatePost
        rw [if_neg hk]
        constructor
        · intro _
          exact Or.inr (Or.inl ⟨e, rfl⟩)
        · intro _
          rfl
      | ok msg =>
        unfold generatePost
        rw [if_neg hk]
        cases hf : msg.content.find? isTextBlock with
        | none =>
          simp only [hf]
          constructor
          · intro _
            exact Or.inr (Or.inr ⟨msg, rfl, hf⟩)
          · intro _
            rfl
        | some b =>
          have hb := List.find?_some hf
          cases b with
          | other => simp [isTextBlock] at hb
          | text t =>
            simp only [hf]
            constructor
            · intro habs
              simp [isErr] at habs
            · rintro (h1 | ⟨e, he⟩ | ⟨msg2, hm2, hnone⟩)
              · rw [h1] at hk2
                cases hk2
              · exact absurd he (by simp)
              · have hmm : msg = msg2 := Except.ok.inj hm2
                rw [← hmm] at hnone
                rw [hf] at hnone
                exact Option.noConfusion hnone
  · intro key
    cases key with
    | none => simp [apiKeyMissing]
    | some k =>
      cases k with
      | nil => simp [apiKeyMissing]
      | cons c rest => simp [apiKeyMissing]
  · intro key call1 call2 hk
    unfold generatePost
    rw [if_pos hk, if_pos hk]

/-- Witness for C8: with no credential the call fails, and the result is the
same whatever the provider would have returned. -/
theorem c8_failure_iff_witness :
    isErr (generatePost none
        (Except.ok { content := [ContentBlock.text "abc".data], usage := ⟨1, 2⟩ })) = true ∧
    apiKeyMissing none = true ∧
    generatePost none
        (Except.ok { content := [ContentBlock.text "abc".data], usage := ⟨1, 2⟩ })
      = generatePost none (Except.error "awaria".data) := by
  have hk : apiKeyMissing none = true := by decide
  exact ⟨(c8_failure_iff.1 none _).mpr (Or.inl hk), hk, c8_failure_iff.2.2 none _ _ hk⟩

/-! ## Lemmas for the sequential-numbering claim -/

theorem natDigitsAux_congr : ∀ f1 f2 n, n < f1 → n < f2 →
    natDigitsAux f1 n = natDigitsAux f2 n := by
  intro f1
  induction f1 with
  | zero => intro f2 n h1 _; omega
  | succ f ih =>
    intro f2 n h1 h2
    cases f2 with
    | zero => omega
    | succ g =>
      unfold natDigitsAux
      by_cases hn : n < 10
      · rw [if_pos hn, if_pos hn]
      · rw [if_neg hn, if_neg hn]
        have hd : n / 10 < n := Nat.div_lt_self (by omega) (by omega)
        rw [ih g (n / 10) (by omega) (by omega)]

theorem natDigits_rec (n : Nat) :
    natDigits n = if n < 10 then [Char.ofNat (48 + n)]
      else natDigits (n / 10) ++ [Char.ofNat (48 + n % 10)] := by
  show natDigitsAux (n + 1) n = _
  unfold natDigitsAux
  by_cases hn : n < 10
  · rw [if_pos hn, if_pos hn]
  · rw [if_neg hn, if_neg hn]
    have hd : n / 10 < n := Nat.div_lt_self (by omega) (by omega)
    rw [natDigitsAux_congr n (n / 10 + 1) (n / 10) (by omega) (by omega)]
    rfl

theorem digit_char_facts : ∀ m, m < 10 →
    (Char.ofNat (48 + m)).isDigit = true ∧
    isWS (Char.ofNat (48 + m)) = false ∧
    lineTerm (Char.ofNat (48 + m)) = false ∧
    foldUp (Char.ofNat (48 + m)) = Char.ofNat (48 + m) ∧
    Char.ofNat (48 + m) ≠ 'I' ∧
    Char.ofNat (48 + m) ≠ '\n' ∧
    (Char.ofNat (48 + m)).toNat - 48 = m := by decide

theorem natDigits_shape (n : Nat) :
    natDigits n ≠ [] ∧ ∀ c ∈ natDigits n, ∃ m, m < 10 ∧ c = Char.ofNat (48 + m) := by
  induction n using Nat.strong_induction_on with
  | _ n ih =>
    rw [natDigits_rec]
    by_cases hn : n < 10
    · rw [if_pos hn]
      refine ⟨by simp, ?_⟩
      intro c hc
      rw [List.mem_singleton] at hc
      exact ⟨n, hn, hc⟩
    · rw [if_neg hn]
      refine ⟨by simp, ?_⟩
      intro c hc
      rcases List.mem_append.mp hc with hl | hr
      · exact (ih (n / 10) (Nat.div_lt_self (by omega) (by omega))).2 c hl
      · rw [List.mem_singleton] at hr
        exact ⟨n % 10, Nat.mod_lt _ (by omega), hr⟩

theorem natOfDigits_append_digit (l : List Char) (c : Char) :
    natOfDigits (l ++ [c]) = natOfDigits l * 10 + (c.toNat - 48) := by
  unfold natOfDigits
  rw [List.foldl_append]
  rfl

theorem natOfDigits_natDigits (n : Nat) : natOfDigits (natDigits n) = n := by
  induction n using Nat.strong_induction_on with
  | _ n ih =>
    rw [natDigits_rec]
    by_cases hn : n < 10
    · rw [if_pos hn]
      have hv := (digit_char_facts n hn).2.2.2.2.2.2
      unfold natOfDigits
      simp only [List.foldl_cons, List.foldl_nil]
      omega
    · rw [if_neg hn]
      rw [natOfDigits_append_digit]
      rw [ih (n / 10) (Nat.div_lt_self (by omega) (by omega))]
      have hv := (digit_char_facts (n % 10) (Nat.mod_lt _ (by omega))).2.2.2.2.2.2
      omega

theorem trimRight_fix_iff (d : List Char) :
    trimRightStr d = d ↔ d.reverse.dropWhile (fun c => isWS c) = d.reverse := by
  unfold trimRightStr
  constructor
  · intro h
    have := congrArg List.reverse h
    rwa [List.reverse_reverse] at this
  · intro h
    rw [h, List.reverse_reverse]

theorem trimRight_append_fix (X d : List Char) (hd : trimRightStr d = d) (hne : d ≠ []) :
    trimRightStr (X ++ d) = X ++ d := by
  have h2 := (trimRight_fix_iff d).mp hd
  unfold trimRightStr
  rw [List.reverse_append, List.dropWhile_append, h2]
  have hrev : d.reverse ≠ [] := by
    intro habs
    exact hne (List.reverse_eq_nil_iff.mp habs)
  rw [if_neg (by simp [List.isEmpty_iff, hrev])]
  rw [← List.reverse_append, List.reverse_reverse]

theorem trimLeft_cons_not_ws (c : Char) (s : List Char) (h : isWS c = false) :
    trimLeftStr (c :: s) = c :: s := by
  unfold trimLeftStr
  rw [List.dropWhile_cons, if_neg (by simp [h])]

theorem exists_non_ws (d : List Char) (hd : trimRightStr d = d) (hne : d ≠ []) :
    ∃ c ∈ d, isWS c = false := by
  have h2 := (trimRight_fix_iff d).mp hd
  cases hrev : d.reverse with
  | nil => exact absurd (List.reverse_eq_nil_iff.mp hrev) hne
  | cons c t =>
    refine ⟨c, ?_, ?_⟩
    · rw [← List.mem_reverse, hrev]
      exact List.mem_cons_self c t
    · rw [hrev, List.dropWhile_cons] at h2
      by_cases hc : isWS c = true
      · rw [if_pos (by simp [hc])] at h2
        have hlen := congrArg List.length h2
        have hle : (t.dropWhile (fun x => isWS x)).length ≤ t.length :=
          List.Sublist.length_le (List.IsSuffix.sublist (List.dropWhile_suffix (fun x => isWS x)))
        simp at hlen
        omega
      · cases hcc : isWS c with
        | true => exact absurd hcc hc
        | false => rfl

theorem trim_nil_all_ws (l : List Char) (h : trimStr l = []) :
    ∀ c ∈ l, isWS c = true := by
  unfold trimStr trimLeftStr at h
  have hall : ∀ c ∈ trimRightStr l, isWS c = true := by
    intro c hc
    exact List.dropWhile_eq_nil_iff.mp h c hc
  intro c hc
  rw [← List.mem_reverse] at hc
  rw [← List.takeWhile_append_dropWhile (p := fun x => isWS x) (l := l.reverse)] at hc
  rcases List.mem_append.mp hc with ht | hdw
  · exact List.mem_takeWhile_imp ht
  · refine hall c ?_
    unfold trimRightStr
    rw [List.mem_reverse]
    exact hdw

theorem splitNl_cons (c : Char) (rest : List Char) :
    splitNl (c :: rest)
      = if c = '\n' then [] :: splitNl rest
        else
          match splitNl rest with
          | l :: ls => (c :: l) :: ls
          | [] => [[c]] := rfl

theorem splitNl_no_nl (l : List Char) (h : '\n' ∉ l) : splitNl l = [l] := by
  induction l with
  | nil => rfl
  | cons c rest ih =>
    have hc : ¬(c = '\n') := fun he => h (he ▸ List.mem_cons_self c rest)
    have hr : '\n' ∉ rest := fun hm => h (List.mem_cons_of_mem c hm)
    rw [splitNl_cons, if_neg hc, ih hr]

theorem splitNl_append_nl (l rest : List Char) (h : '\n' ∉ l) :
    splitNl (l ++ '\n' :: rest) = l :: splitNl rest := by
  induction l with
  | nil =>
    simp only [List.nil_append]
    rw [splitNl_cons, if_pos rfl]
  | cons c t ih =>
    have hc : ¬(c = '\n') := fun he => h (he ▸ List.mem_cons_self c t)
    have ht : '\n' ∉ t := fun hm => h (List.mem_cons_of_mem c hm)
    simp only [List.cons_append]
    rw [splitNl_cons, if_neg hc, ih ht]

theorem goodDesc_parts (d : List Char) (h : goodDesc d = true) :
    d ≠ [] ∧ (∀ c ∈ d, lineTerm c = false) ∧ trimRightStr d = d := by
  unfold goodDesc at h
  simp only [Bool.and_eq_true, Bool.not_eq_true', List.all_eq_true,
    decide_eq_true_eq] at h
  refine ⟨?_, fun c hc => h.1.2 c hc, h.2⟩
  intro habs
  rw [habs] at h
  simp at h

theorem numberedLines_shape (ds : List (List Char)) (s : Nat) (d : List Char)
    (rest : List (List Char)) (h : ds = d :: rest) :
    ∃ tail, numberedLines s ds = natDigits s ++ '.' :: ' ' :: tail := by
  subst h
  cases rest with
  | nil => exact ⟨d, rfl⟩
  | cons d2 r2 =>
    refine ⟨d ++ '\n' :: numberedLines (s + 1) (d2 :: r2), ?_⟩
    show numberedLine s d ++ '\n' :: numberedLines (s + 1) (d2 :: r2) = _
    unfold numberedLine
    simp [List.append_assoc]

theorem numberedLines_ne_nil (ds : List (List Char)) (s : Nat) (hne : ds ≠ []) :
    numberedLines s ds ≠ [] := by
  cases ds with
  | nil => exact absurd rfl hne
  | cons d rest =>
    rcases numberedLines_shape (d :: rest) s d rest rfl with ⟨tail, heq⟩
    rw [heq]
    intro habs
    rcases List.append_eq_nil.mp habs with ⟨h1, h2⟩
    exact absurd h2 (by simp)

theorem trimRight_numberedLines (ds : List (List Char)) (s : Nat)
    (hgood : ∀ d ∈ ds, goodDesc d = true) (hne : ds ≠ []) :
    trimRightStr (numberedLines s ds) = numberedLines s ds := by
  induction ds generalizing s with
  | nil => exact absurd rfl hne
  | cons d rest ih =>
    rcases goodDesc_parts d (hgood d (List.mem_cons_self d rest)) with ⟨hdne, _, hdfix⟩
    cases rest with
    | nil =>
      show trimRightStr (numberedLine s d) = numberedLine s d
      unfold numberedLine
      have : natDigits s ++ '.' :: ' ' :: d = (natDigits s ++ ['.', ' ']) ++ d := by
        simp [List.append_assoc]
      rw [this]
      exact trimRight_append_fix _ d hdfix hdne
    | cons d2 r2 =>
      have hgood2 : ∀ x ∈ d2 :: r2, goodDesc x = true :=
        fun x hx => hgood x (List.mem_cons_of_mem d hx)
      have ih2 := ih (s + 1) hgood2 (by simp)
      show trimRightStr (numberedLine s d ++ '\n' :: numberedLines (s + 1) (d2 :: r2)) = _
      have : numberedLine s d ++ '\n' :: numberedLines (s + 1) (d2 :: r2)
          = (numberedLine s d ++ ['\n']) ++ numberedLines (s + 1) (d2 :: r2) := by
        simp [List.append_assoc]
      rw [this]
      rw [trimRight_append_fix _ _ ih2 (numberedLines_ne_nil _ _ (by simp))]
      rw [List.append_assoc]
      rfl

theorem trimLeft_numberedLines (ds : List (List Char)) (s : Nat) (hne : ds ≠ []) :
    trimLeftStr (numberedLines s ds) = numberedLines s ds := by
  cases ds with
  | nil => exact absurd rfl hne
  | cons d rest =>
    rcases numberedLines_shape (d :: rest) s d rest rfl with ⟨tail, heq⟩
    cases hd : natDigits s with
    | nil => exact absurd hd (natDigits_shape s).1
    | cons c t =>
      rcases (natDigits_shape s).2 c (by rw [hd]; exact List.mem_cons_self c t) with ⟨m, hm, hc⟩
      have hcw : isWS c = false := by rw [hc]; exact (digit_char_facts m hm).2.1
      rw [heq, hd]
      simp only [List.cons_append]
      exact trimLeft_cons_not_ws c _ hcw

theorem trim_nl_numberedLines (ds : List (List Char)) (hgood : ∀ d ∈ ds, goodDesc d = true)
    (hne : ds ≠ []) :
    trimStr ('\n' :: numberedLines 1 ds) = numberedLines 1 ds := by
  unfold trimStr
  have h1 : trimRightStr ('\n' :: numberedLines 1 ds) = '\n' :: numberedLines 1 ds := by
    have : '\n' :: numberedLines 1 ds = ['\n'] ++ numberedLines 1 ds := rfl
    rw [this]
    exact trimRight_append_fix _ _ (trimRight_numberedLines ds 1 hgood hne)
      (numberedLines_ne_nil ds 1 hne)
  rw [h1]
  unfold trimLeftStr
  rw [List.dropWhile_cons, if_pos (by decide)]
  exact trimLeft_numberedLines ds 1 hne

theorem nl_not_mem_numberedLine (s : Nat) (d : List Char) (hgood : goodDesc d = true) :
    '\n' ∉ numberedLine s d := by
  rcases goodDesc_parts d hgood with ⟨_, hterm, _⟩
  unfold numberedLine
  intro hmem
  rcases List.mem_append.mp hmem with hdig | hrest
  · rcases (natDigits_shape s).2 _ hdig with ⟨m, hm, hc⟩
    exact absurd hc.symm (digit_char_facts m hm).2.2.2.2.2.1
  · rcases List.mem_cons.mp hrest with h1 | h2
    · exact absurd h1 (by decide)
    · rcases List.mem_cons.mp h2 with h3 | h4
      · exact absurd h3 (by decide)
      · have := hterm _ h4
        simp [lineTerm] at this

theorem splitNl_numberedLines (ds : List (List Char)) (s : Nat)
    (hgood : ∀ d ∈ ds, goodDesc d = true) (hne : ds ≠ []) :
    splitNl (numberedLines s ds) = linesList s ds := by
  induction ds generalizing s with
  | nil => exact absurd rfl hne
  | cons d rest ih =>
    have hd := hgood d (List.mem_cons_self d rest)
    cases rest with
    | nil =>
      show splitNl (numberedLine s d) = [numberedLine s d]
      exact splitNl_no_nl _ (nl_not_mem_numberedLine s d hd)
    | cons d2 r2 =>
      have hgood2 : ∀ x ∈ d2 :: r2, goodDesc x = true :=
        fun x hx => hgood x (List.mem_cons_of_mem d hx)
      show splitNl (numberedLine s d ++ '\n' :: numberedLines (s + 1) (d2 :: r2))
        = numberedLine s d :: linesList (s + 1) (d2 :: r2)
      rw [splitNl_append_nl _ _ (nl_not_mem_numberedLine s d hd)]
      rw [ih (s + 1) hgood2 (by simp)]

theorem mem_linesList (ds : List (List Char)) (s : Nat) (line : List Char)
    (h : line ∈ linesList s ds) : ∃ k d, d ∈ ds ∧ line = numberedLine k d := by
  induction ds generalizing s with
  | nil => cases h
  | cons d rest ih =>
    rcases List.mem_cons.mp h with h1 | h2
    · exact ⟨s, d, List.mem_cons_self d rest, h1⟩
    · rcases ih (s + 1) h2 with ⟨k, d2, hd2, heq⟩
      exact ⟨k, d2, List.mem_cons_of_mem d hd2, heq⟩

theorem trimStr_numberedLine_ne (s : Nat) (d : List Char) :
    (!(trimStr (numberedLine s d)).isEmpty) = true := by
  cases htr : trimStr (numberedLine s d) with
  | cons c t => rfl
  | nil =>
    exfalso
    have hall := trim_nil_all_ws _ htr
    have hdot : '.' ∈ numberedLine s d := by
      unfold numberedLine
      exact List.mem_append_right _ (List.mem_cons_self _ _)
    have := hall '.' hdot
    simp [isWS] at this

theorem mem_of_mem_dropWhile_ws (d : List Char) (x : Char)
    (h : x ∈ d.dropWhile (fun c => isWS c)) : x ∈ d := by
  rw [← List.takeWhile_append_dropWhile (p := fun c => isWS c) (l := d)]
  exact List.mem_append_right _ h

theorem matchTail_space_good (d : List Char) (hgood : goodDesc d = true) :
    matchTail (' ' :: d) = some (d.dropWhile (fun c => isWS c)) := by
  rcases goodDesc_parts d hgood with ⟨hne, hterm, hfix⟩
  have hdw : (' ' :: d).dropWhile (fun c => isWS c) = d.dropWhile (fun c => isWS c) := by
    rw [List.dropWhile_cons, if_pos (by decide)]
  have hd2ne : d.dropWhile (fun c => isWS c) ≠ [] := by
    intro habs
    rcases exists_non_ws d hfix hne with ⟨c, hc, hcw⟩
    have hcl := List.dropWhile_eq_nil_iff.mp habs c hc
    simp [hcw] at hcl
  have hnoterm : (d.dropWhile (fun c => isWS c)).any (fun c => lineTerm c) = false := by
    rw [List.any_eq_false]
    intro x hx
    have := hterm x (mem_of_mem_dropWhile_ws d x hx)
    simp [this]
  unfold matchTail
  rw [hdw]
  rw [if_neg (by simp [List.isEmpty_iff, hd2ne])]
  rw [if_neg (by simp [hnoterm])]

theorem natDigits_all_digit (k : Nat) : ∀ c ∈ natDigits k, Char.isDigit c = true := by
  intro c hc
  rcases (natDigits_shape k).2 c hc with ⟨m, hm, hceq⟩
  rw [hceq]
  exact (digit_char_facts m hm).1

theorem takeWhile_digit_numberedLine (k : Nat) (d : List Char) :
    (numberedLine k d).takeWhile Char.isDigit = natDigits k := by
  unfold numberedLine
  rw [List.takeWhile_append]
  have hself : (natDigits k).takeWhile Char.isDigit = natDigits k :=
    List.takeWhile_eq_self_iff.mpr (natDigits_all_digit k)
  rw [hself, if_pos rfl]
  rw [List.takeWhile_cons, if_neg (by decide)]
  simp

theorem stripImageWord_numberedLine (k : Nat) (d : List Char) :
    stripImageWord (numberedLine k d) = none := by
  unfold stripImageWord
  rw [if_neg]
  intro heq
  cases hnd : natDigits k with
  | nil => exact (natDigits_shape k).1 hnd
  | cons c t =>
    rcases (natDigits_shape k).2 c (by rw [hnd]; exact List.mem_cons_self c t) with ⟨m, hm, hceq⟩
    have hline : numberedLine k d = c :: (t ++ '.' :: ' ' :: d) := by
      unfold numberedLine
      rw [hnd]
      rfl
    rw [hline] at heq
    rw [List.take_succ_cons, List.map_cons] at heq
    have himg : imageWord = 'I' :: "MAGE".data := rfl
    rw [himg] at heq
    have hhead : foldUp c = 'I' := (List.cons.injEq _ _ _ _).mp heq |>.1
    rw [hceq] at hhead
    rw [(digit_char_facts m hm).2.2.2.1] at hhead
    exact (digit_char_facts m hm).2.2.2.2.1 hhead

theorem matchLine_numberedLine (k : Nat) (d : List Char) (hgood : goodDesc d = true) :
    matchLine (numberedLine k d) = some (k, d.dropWhile (fun c => isWS c)) := by
  unfold matchLine
  rw [stripImageWord_numberedLine]
  unfold matchRest
  rw [takeWhile_digit_numberedLine]
  have hdrop : (numberedLine k d).drop (natDigits k).length = '.' :: ' ' :: d := by
    show (natDigits k ++ ('.' :: ' ' :: d)).drop (natDigits k).length = _
    exact List.drop_left _ _
  rw [hdrop]
  have hie : (natDigits k).isEmpty = false := by
    cases hnd : natDigits k with
    | nil => exact absurd hnd (natDigits_shape k).1
    | cons c t => rfl
  rw [if_neg (by simp [hie])]
  dsimp only
  rw [if_pos (show '.' ∈ seps by decide)]
  rw [matchTail_space_good d hgood]
  rw [natOfDigits_natDigits]

theorem foldl_linesList (ds : List (List Char)) (s : Nat) (acc : List ImageOrderItem)
    (hgood : ∀ d ∈ ds, goodDesc d = true) :
    (linesList s ds).foldl pushItem acc = acc ++ itemsFrom s ds := by
  induction ds generalizing s acc with
  | nil => simp [linesList, itemsFrom]
  | cons d rest ih =>
    have hd := hgood d (List.mem_cons_self d rest)
    have hgood2 : ∀ x ∈ rest, goodDesc x = true :=
      fun x hx => hgood x (List.mem_cons_of_mem d hx)
    show ((linesList (s + 1) rest).foldl pushItem (pushItem acc (numberedLine s d)))
      = acc ++ itemsFrom s (d :: rest)
    have hpush : pushItem acc (numberedLine s d)
        = acc ++ [{ position := (s : Int) - 1,
                    description := removeBold (trimStr (d.dropWhile (fun c => isWS c))) }] := by
      unfold pushItem
      rw [matchLine_numberedLine s d hd]
    rw [hpush, ih (s + 1) _ hgood2]
    show (acc ++ [_]) ++ itemsFrom (s + 1) rest = acc ++ itemsFrom s (d :: rest)
    rw [List.append_assoc]
    rfl

theorem filter_linesList (ds : List (List Char)) (s : Nat) :
    (linesList s ds).filter (fun l => !(trimStr l).isEmpty) = linesList s ds := by
  apply List.filter_eq_self.mpr
  intro line hline
  rcases mem_linesList ds s line hline with ⟨k, d, _, heq⟩
  rw [heq]
  exact trimStr_numberedLine_ne k d

theorem parseImageOrder_numberedLines (ds : List (List Char))
    (hgood : ∀ d ∈ ds, goodDesc d = true) (hne : ds ≠ []) :
    parseImageOrder (numberedLines 1 ds) = itemsFrom 1 ds := by
  unfold parseImageOrder
  rw [splitNl_numberedLines ds 1 hgood hne, filter_linesList, foldl_linesList ds 1 [] hgood]
  rfl

theorem itemsFrom_length (ds : List (List Char)) (s : Nat) :
    (itemsFrom s ds).length = ds.length := by
  induction ds generalizing s with
  | nil => rfl
  | cons d rest ih =>
    show (itemsFrom s (d :: rest)).length = rest.length + 1
    unfold itemsFrom
    simp [ih (s + 1)]

theorem itemsFrom_position (ds : List (List Char)) (s : Nat) :
    ∀ i (h : i < (itemsFrom s ds).length),
      ((itemsFrom s ds).get ⟨i, h⟩).position = (s : Int) + i - 1 := by
  induction ds generalizing s with
  | nil => intro i h; simp [itemsFrom] at h
  | cons d rest ih =>
    intro i h
    cases i with
    | zero => simp [itemsFrom]
    | succ j =>
      show ((itemsFrom (s + 1) rest).get ⟨j, _⟩).position = _
      rw [ih (s + 1) j _]
      push_cast
      ring

theorem c3_chooseMarker (T : List Char) (pl hl : Nat)
    (h1 : firstMatch Marker.sugerowana T = some (pl, hl))
    (h2 : idxLe (firstMatch Marker.kolejnoscMixed T) pl = true)
    (h3 : idxLe (firstMatch Marker.kolejnoscUpper T) pl = true)
    (h4 : idxLe (firstMatch Marker.dashes T) pl = true) :
    chooseMarker T = ((pl : Int), hl) := by
  have e1 : chooseStep T (-1, 0) Marker.sugerowana = ((pl : Int), hl) := by
    unfold chooseStep
    rw [h1]
    dsimp only
    rw [if_pos (by omega)]
  have step : ∀ m, idxLe (firstMatch m T) pl = true →
      chooseStep T ((pl : Int), hl) m = ((pl : Int), hl) := by
    intro m hm
    unfold chooseStep
    cases hf : firstMatch m T with
    | none => rfl
    | some il =>
      cases il with
      | mk i l =>
        rw [hf] at hm
        unfold idxLe at hm
        simp only [decide_eq_true_eq] at hm
        dsimp only
        rw [if_neg (by omega)]
  unfold chooseMarker markers
  simp only [List.foldl_cons, List.foldl_nil]
  rw [e1, step _ h2, step _ h3, step _ h4]

theorem c3_imageOrder (p : List Char) (ds : List (List Char))
    (hne : ds ≠ [])
    (hgood : ∀ d ∈ ds, goodDesc d = true)
    (h1 : firstMatch Marker.sugerowana (c3text p ds) = some (p.length, hdStr.length))
    (h2 : idxLe (firstMatch Marker.kolejnoscMixed (c3text p ds)) p.length = true)
    (h3 : idxLe (firstMatch Marker.kolejnoscUpper (c3text p ds)) p.length = true)
    (h4 : idxLe (firstMatch Marker.dashes (c3text p ds)) p.length = true) :
    (parseResponse (c3text p ds)).imageOrder = itemsFrom 1 ds := by
  have hc := c3_chooseMarker (c3text p ds) p.length hdStr.length h1 h2 h3 h4
  have hdrop : (c3text p ds).drop (p.length + hdStr.length) = '\n' :: numberedLines 1 ds := by
    unfold c3text
    exact List.drop_left' (by simp)
  unfold parseResponse
  rw [hc]
  dsimp only
  rw [if_neg (by omega)]
  dsimp only
  rw [Int.toNat_ofNat]
  rw [hdrop]
  rw [trim_nl_numberedLines ds hgood hne]
  exact parseImageOrder_numberedLines ds hgood hne

/-- C3: for a text consisting of a preamble, exactly one primary heading (the
heading's first match is at the preamble's end and every other pattern first
matches no later), and N well-formed lines numbered sequentially from 1,
`parseResponse` returns exactly N photo items whose i-th position is i (the
1-based numeral shifted to 0-based). -/
theorem c3_sequential_numbering (p : List Char) (ds : List (List Char))
    (hne : ds ≠ [])
    (hgood : ∀ d ∈ ds, goodDesc d = true)
    (h1 : firstMatch Marker.sugerowana (c3text p ds) = some (p.length, hdStr.length))
    (h2 : idxLe (firstMatch Marker.kolejnoscMixed (c3text p ds)) p.length = true)
    (h3 : idxLe (firstMatch Marker.kolejnoscUpper (c3text p ds)) p.length = true)
    (h4 : idxLe (firstMatch Marker.dashes (c3text p ds)) p.length = true) :
    ((parseResponse (c3text p ds)).imageOrder).length = ds.length ∧
    ∀ i (h : i < ((parseResponse (c3text p ds)).imageOrder).length),
      (((parseResponse (c3text p ds)).imageOrder).get ⟨i, h⟩).position = (i : Int) := by
  have hio := c3_imageOrder p ds hne hgood h1 h2 h3 h4
  constructor
  · rw [hio, itemsFrom_length]
  · intro i h
    rw [List.get_of_eq hio ⟨i, h⟩]
    rw [itemsFrom_position]
    simp only [Fin.val_mk]
    omega

set_option maxRecDepth 4000 in
/-- Witness for C3 with a two-item list. -/
theorem c3_sequential_numbering_witness :
    (["opis".data, "drugi".data] : List (List Char)) ≠ [] ∧
    (∀ d ∈ ["opis".data, "drugi".data], goodDesc d = true) ∧
    firstMatch Marker.sugerowana (c3text "Wstep\n".data ["opis".data, "drugi".data])
      = some ("Wstep\n".data.length, hdStr.length) ∧
    ((parseResponse (c3text "Wstep\n".data ["opis".data, "drugi".data])).imageOrder).length = 2 ∧
    ∀ i (h : i < ((parseResponse (c3text "Wstep\n".data
          ["opis".data, "drugi".data])).imageOrder).length),
      (((parseResponse (c3text "Wstep\n".data
          ["opis".data, "drugi".data])).imageOrder).get ⟨i, h⟩).position = (i : Int) := by
  have hgood : ∀ d ∈ ["opis".data, "drugi".data], goodDesc d = true := by decide
  have h1 : firstMatch Marker.sugerowana (c3text "Wstep\n".data ["opis".data, "drugi".data])
      = some ("Wstep\n".data.length, hdStr.length) := by decide
  have hmain := c3_sequential_numbering "Wstep\n".data ["opis".data, "drugi".data]
    (by decide) hgood h1 (by decide) (by decide) (by decide)
  exact ⟨by decide, hgood, h1, hmain.1.trans (by decide), hmain.2⟩
